import Mathlib

/-!
Shallow embedding of the football league prediction pipeline
(`pl_2025_26_prediction.py`): match parsing, season summarization, training
set construction and the ranking step, together with proofs of the
behavioural properties claimed for them.

Modelling conventions: pandas tables become lists of structures, machine
integers become `Int`, the rational feature means become `ℚ`, fallible
library calls become `Option`.  The stable multi-key `sort_values` of pandas
(implemented with `numpy.lexsort`, which is stable) is embedded as
`List.insertionSort`, which realises the same stable sort.
-/

/-- A raw season row: the two team name columns (`Team 1`, `Team 2`) and the
text of the `FT` score column, `none` modelling a missing value.  Score text
is modelled as a character list. -/
structure RawRow where
  team1 : String
  team2 : String
  ft : Option (List Char)
deriving DecidableEq

/-- Python `str.split("-")` on a character list: the list of maximal
separator-free segments (an empty input yields one empty segment, as in
Python). -/
def splitDash : List Char → List (List Char)
  | [] => [[]]
  | c :: cs =>
    if c = '-' then [] :: splitDash cs
    else
      match splitDash cs with
      | [] => [[c]]
      | s :: ss => (c :: s) :: ss

/-- Value of a digit string, most significant digit first. -/
def digitsVal (ds : List Char) : Nat :=
  ds.foldl (fun n c => 10 * n + (c.toNat - '0'.toNat)) 0

/-- Python `int(...)` as used by `.astype(int)` on the split segments:
an optional sign followed by a nonempty run of decimal digits (underscores,
surrounding whitespace and non-ASCII digits are never produced by this
pipeline's score data and are not modelled). -/
def pyInt : List Char → Option Int
  | [] => none
  | c :: rest =>
    if c = '-' then
      if rest ≠ [] ∧ rest.all Char.isDigit then some (-(digitsVal rest : Int)) else none
    else if c = '+' then
      if rest ≠ [] ∧ rest.all Char.isDigit then some ((digitsVal rest : Int)) else none
    else if (c :: rest).all Char.isDigit then some ((digitsVal (c :: rest) : Int))
    else none

/-- One parsed match: team names plus the `home_goals` / `away_goals`
columns. -/
structure Match where
  home : String
  away : String
  hg : Int
  ag : Int
deriving DecidableEq

/-- Parsing of one raw row: split the `FT` text on `"-"` and convert the
first two segments (`goals[0]`, `goals[1]` in the source) with `int`.  Any
segment beyond the second is ignored by the source, and so here. -/
def parseRow (r : RawRow) : Option Match :=
  match r.ft with
  | none => none
  | some s =>
    match (splitDash s).get? 0, (splitDash s).get? 1 with
    | some g1, some g2 =>
      match pyInt g1, pyInt g2 with
      | some h, some a => some ⟨r.team1, r.team2, h, a⟩
      | _, _ => none
    | _, _ => none

/-- The row loop of the parser: all rows parsed, or failure of the whole
call as soon as any row fails (`.astype(int)` fails on the whole column). -/
def parseRows : List RawRow → Option (List Match)
  | [] => some []
  | r :: rest =>
    match parseRow r, parseRows rest with
    | some m, some ms => some (m :: ms)
    | _, _ => none

/-- The function `parse_match_results`: augment every row with the two integer goal
columns; the whole call fails if any row fails.  On an empty table the
source also fails: splitting an empty column yields a frame without a
column `0`. -/
def parse_match_results (rows : List RawRow) : Option (List Match) :=
  if rows.isEmpty then none else parseRows rows

/-- Per-team accumulator record of `summarise_season`. -/
structure TeamStats where
  points : Int
  wins : Int
  draws : Int
  losses : Int
  goals_for : Int
  goals_against : Int
deriving DecidableEq

/-- The `defaultdict` initial entry. -/
def emptyStats : TeamStats := ⟨0, 0, 0, 0, 0, 0⟩

/-- The `teams[t]` mutation of the `defaultdict`: modify the entry in place, or
append a fresh entry at the end (Python dicts preserve insertion order). -/
def upd : List (String × TeamStats) → String → (TeamStats → TeamStats) → List (String × TeamStats)
  | [], t, f => [(t, f emptyStats)]
  | (u, s) :: rest, t, f =>
    if u = t then (u, f s) :: rest else (u, s) :: upd rest t f

/-- Current statistics of a team in the accumulator (the `defaultdict`
read: the stored entry, or the initial record for an unseen key). -/
def getStats : List (String × TeamStats) → String → TeamStats
  | [], _ => emptyStats
  | p :: rest, t => if p.1 = t then p.2 else getStats rest t

/-- Goal-tally update of one side of a match. -/
def addGoals (gf ga : Int) (s : TeamStats) : TeamStats :=
  { s with goals_for := s.goals_for + gf, goals_against := s.goals_against + ga }

/-- Points and win count of the winning side. -/
def addWin (s : TeamStats) : TeamStats :=
  { s with points := s.points + 3, wins := s.wins + 1 }

/-- Loss count of the losing side. -/
def addLoss (s : TeamStats) : TeamStats :=
  { s with losses := s.losses + 1 }

/-- Point and draw count of one side of a drawn match. -/
def addDraw (s : TeamStats) : TeamStats :=
  { s with points := s.points + 1, draws := s.draws + 1 }

/-- One iteration of the match loop of `summarise_season`: both goal
tallies, then the outcome branch. -/
def step (acc : List (String × TeamStats)) (m : Match) : List (String × TeamStats) :=
  let acc2 := upd (upd acc m.home (addGoals m.hg m.ag)) m.away (addGoals m.ag m.hg)
  if m.ag < m.hg then upd (upd acc2 m.home addWin) m.away addLoss
  else if m.hg < m.ag then upd (upd acc2 m.away addWin) m.home addLoss
  else upd (upd acc2 m.home addDraw) m.away addDraw

/-- The whole match loop of `summarise_season`. -/
def accumulate (ms : List Match) : List (String × TeamStats) :=
  ms.foldl step []

/-- One row of the standings table. -/
structure StandingRow where
  team : String
  points : Int
  wins : Int
  draws : Int
  losses : Int
  goals_for : Int
  goals_against : Int
  goal_diff : Int
  position : Nat
deriving DecidableEq

/-- A summary row before sorting; `goal_diff = goals_for - goals_against`
and the `position` column is attached only after the sort (placeholder
`0`). -/
def rowOf (p : String × TeamStats) : StandingRow :=
  { team := p.1, points := p.2.points, wins := p.2.wins, draws := p.2.draws,
    losses := p.2.losses, goals_for := p.2.goals_for,
    goals_against := p.2.goals_against,
    goal_diff := p.2.goals_for - p.2.goals_against, position := 0 }

/-- Ascending lexicographic comparison of `(points, goal_diff, goals_for)`
key triples. -/
def lexLE (x y : Int × Int × Int) : Prop :=
  x.1 < y.1 ∨ (x.1 = y.1 ∧ (x.2.1 < y.2.1 ∨ (x.2.1 = y.2.1 ∧ x.2.2 ≤ y.2.2)))

/-- The three sort keys of a standings row. -/
def keyOf (r : StandingRow) : Int × Int × Int :=
  (r.points, r.goal_diff, r.goals_for)

/-- Row order of `sort_values(["points", "goal_diff", "goals_for"],
ascending=[False, False, False])`. -/
def standingOrder (a b : StandingRow) : Prop := lexLE (keyOf b) (keyOf a)

/-- Row order of the ascending sort selecting the bottom three. -/
def bottomOrder (a b : StandingRow) : Prop := lexLE (keyOf a) (keyOf b)

instance (x y : Int × Int × Int) : Decidable (lexLE x y) := by
  unfold lexLE; exact inferInstance

instance : DecidableRel standingOrder := fun a b => by
  unfold standingOrder; exact inferInstance

instance : DecidableRel bottomOrder := fun a b => by
  unfold bottomOrder; exact inferInstance

/-- The assignment `summary["position"] = summary.index + 1`: positions assigned in sorted
order starting from `n`. -/
def setPositions : Nat → List StandingRow → List StandingRow
  | _, [] => []
  | n, r :: rs => { r with position := n } :: setPositions (n + 1) rs

/-- Body of `summarise_season`: accumulate, sort descending by the three
keys (a stable sort, as pandas' multi-key `sort_values` is), and assign
positions `1..n`. -/
def summarise_core (ms : List Match) : List StandingRow :=
  setPositions 1 (List.insertionSort standingOrder ((accumulate ms).map rowOf))

/-- The function `summarise_season`; on an empty match table the source fails (sorting a
frame that has no columns raises), modelled as `none`. -/
def summarise_season (ms : List Match) : Option (List StandingRow) :=
  if ms.isEmpty then none else some (summarise_core ms)

/-- A feature vector of the seven model features.  Promoted-team defaults
are row means, hence rational entries. -/
structure Features where
  points : ℚ
  wins : ℚ
  draws : ℚ
  losses : ℚ
  goals_for : ℚ
  goals_against : ℚ
  goal_diff : ℚ
deriving DecidableEq

/-- The seven-column feature slice of a standings row. -/
def featuresOfRow (r : StandingRow) : Features :=
  { points := (r.points : ℚ), wins := (r.wins : ℚ), draws := (r.draws : ℚ),
    losses := (r.losses : ℚ), goals_for := (r.goals_for : ℚ),
    goals_against := (r.goals_against : ℚ), goal_diff := (r.goal_diff : ℚ) }

/-- The `bottom_three.mean()` computation of the source: stable ascending sort by
`(points, goal_diff, goals_for)`, first three rows, field-wise mean. -/
def defaultFeatures (prev : List StandingRow) : Features :=
  let b3 := (List.insertionSort bottomOrder prev).take 3
  let n : ℚ := (b3.length : ℚ)
  { points := (b3.map fun r => (r.points : ℚ)).sum / n,
    wins := (b3.map fun r => (r.wins : ℚ)).sum / n,
    draws := (b3.map fun r => (r.draws : ℚ)).sum / n,
    losses := (b3.map fun r => (r.losses : ℚ)).sum / n,
    goals_for := (b3.map fun r => (r.goals_for : ℚ)).sum / n,
    goals_against := (b3.map fun r => (r.goals_against : ℚ)).sum / n,
    goal_diff := (b3.map fun r => (r.goal_diff : ℚ)).sum / n }

/-- The test `team in prev_summary.index` combined with `prev_summary.loc[team]`
(the index is unique, so `find?` returns the row). -/
def lookupTeam (prev : List StandingRow) (t : String) : Option StandingRow :=
  prev.find? (fun r => r.team = t)

/-- The inner loop of the training set construction for one consecutive
season pair: one `(features, label)` pair per row of the current season's
standing, in standing order. -/
def training_pairs (prev curr : List StandingRow) : List (Features × Nat) :=
  curr.map fun row =>
    (match lookupTeam prev row.team with
     | some p => featuresOfRow p
     | none => defaultFeatures prev,
     row.position)

/-- Consecutive pairs `(l[i], l[i+1])` of a list. -/
def consecPairs (l : List α) : List (α × α) := l.zip l.tail

/-- The hardcoded promoted-team list for the 2025/26 season. -/
def promoted : List String := ["Leeds United", "Burnley", "Sunderland"]

/-- The inference feature table: every team of the most recent standing with
its real features (in standing order), then every promoted name not already
present, with the default features of the most recent standing. -/
def latest_rows (last : List StandingRow) : List (String × Features) :=
  last.map (fun r => (r.team, featuresOfRow r)) ++
    (promoted.filter fun t => t ∉ last.map (fun r => r.team)).map
      (fun t => (t, defaultFeatures last))

/-- The per-season parse-and-summarise loop of `prepare_training_data`. -/
def seasonSummaries : List (List RawRow) → Option (List (List StandingRow))
  | [] => some []
  | s :: rest =>
    match parse_match_results s with
    | none => none
    | some parsed =>
      match summarise_season parsed with
      | none => none
      | some sm =>
        match seasonSummaries rest with
        | none => none
        | some others => some (sm :: others)

/-- The function `prepare_training_data`: per-season summaries, the training pairs of all
consecutive season pairs, and the inference feature table of the most
recent season (`files_sorted[-1]`; with no seasons that indexing fails). -/
def prepare_training_data (seasons : List (List RawRow)) :
    Option (List Features × List Nat × List (String × Features)) :=
  match seasonSummaries seasons with
  | none => none
  | some summaries =>
    match summaries.getLast? with
    | none => none
    | some last =>
      let pairs :=
        ((consecPairs summaries).map fun pc => training_pairs pc.1 pc.2).flatten
      some (pairs.map Prod.fst, pairs.map Prod.snd, latest_rows last)

/-- Row-wise dot product `probas.dot(classes)`. -/
def dotQ (p c : List ℚ) : ℚ := (List.zipWith (fun a b => a * b) p c).sum

/-- One row of the prediction table. -/
structure PredRow where
  predicted_rank : Nat
  team : String
  expected_position : ℚ
deriving DecidableEq

/-- Sort order of the prediction table (ascending expected position).  The
source sorts with the pandas default `kind='quicksort'`; this embedding
fixes the order among exact ties to the stable one. -/
def expOrder (a b : String × ℚ) : Prop := a.2 ≤ b.2

instance : DecidableRel expOrder := fun a b => by
  unfold expOrder; exact inferInstance

/-- Rank assignment `prediction_df.index + 1` after the sort. -/
def setRanks : Nat → List (String × ℚ) → List PredRow
  | _, [] => []
  | n, te :: rest => ⟨n, te.1, te.2⟩ :: setRanks (n + 1) rest

/-- The function `predict_league_table`, taking the classifier outputs (probability
matrix and class label vector) as explicit inputs: expected positions as
probability-weighted class labels, sort ascending, ranks `1..n`. -/
def predict_league_table (probas : List (List ℚ)) (classes : List ℚ)
    (teams : List String) : List PredRow :=
  let table := teams.zip (probas.map fun pr => dotQ pr classes)
  setRanks 1 (List.insertionSort expOrder table)

/-- Minimum of a rational list (`0` for the empty list, which is never
used). -/
def listMinQ : List ℚ → ℚ
  | [] => 0
  | [a] => a
  | a :: b :: t => min a (listMinQ (b :: t))

/-- Maximum of a rational list (`0` for the empty list, which is never
used). -/
def listMaxQ : List ℚ → ℚ
  | [] => 0
  | [a] => a
  | a :: b :: t => max a (listMaxQ (b :: t))

/-- Score-field badness in the vocabulary of the parser contract: no score
text, or no two dash-separated segments whose first two members are both
integer-parseable. -/
def scoreBad (r : RawRow) : Prop :=
  ¬ ∃ s g1 g2, r.ft = some s ∧ (splitDash s).get? 0 = some g1 ∧
    (splitDash s).get? 1 = some g2 ∧ (pyInt g1).isSome ∧ (pyInt g2).isSome

/-! ### Order facts for the two sort relations -/

theorem lexLE_total (x y : Int × Int × Int) : lexLE x y ∨ lexLE y x := by
  unfold lexLE
  rcases lt_trichotomy x.1 y.1 with h | h | h
  · exact Or.inl (Or.inl h)
  · rcases lt_trichotomy x.2.1 y.2.1 with h2 | h2 | h2
    · exact Or.inl (Or.inr ⟨h, Or.inl h2⟩)
    · rcases le_total x.2.2 y.2.2 with h3 | h3
      · exact Or.inl (Or.inr ⟨h, Or.inr ⟨h2, h3⟩⟩)
      · exact Or.inr (Or.inr ⟨h.symm, Or.inr ⟨h2.symm, h3⟩⟩)
    · exact Or.inr (Or.inr ⟨h.symm, Or.inl h2⟩)
  · exact Or.inr (Or.inl h)

theorem lexLE_trans {x y z : Int × Int × Int} (h1 : lexLE x y) (h2 : lexLE y z) :
    lexLE x z := by
  unfold lexLE at h1 h2 ⊢
  rcases h1 with h1 | ⟨e1, h1⟩
  · rcases h2 with h2 | ⟨e2, h2⟩
    · exact Or.inl (h1.trans h2)
    · exact Or.inl (h1.trans_eq e2)
  · rcases h2 with h2 | ⟨e2, h2⟩
    · exact Or.inl (e1.trans_lt h2)
    · refine Or.inr ⟨e1.trans e2, ?_⟩
      rcases h1 with h1 | ⟨f1, h1⟩
      · rcases h2 with h2 | ⟨f2, h2⟩
        · exact Or.inl (h1.trans h2)
        · exact Or.inl (h1.trans_eq f2)
      · rcases h2 with h2 | ⟨f2, h2⟩
        · exact Or.inl (f1.trans_lt h2)
        · exact Or.inr ⟨f1.trans f2, h1.trans h2⟩

instance : IsTotal StandingRow standingOrder :=
  ⟨fun a b => (lexLE_total (keyOf a) (keyOf b)).symm⟩

instance : IsTrans StandingRow standingOrder :=
  ⟨fun _ _ _ h1 h2 => lexLE_trans h2 h1⟩

instance : IsTotal StandingRow bottomOrder :=
  ⟨fun a b => lexLE_total (keyOf a) (keyOf b)⟩

instance : IsTrans StandingRow bottomOrder :=
  ⟨fun _ _ _ h1 h2 => lexLE_trans h1 h2⟩

instance : IsTotal (String × ℚ) expOrder :=
  ⟨fun a b => le_total a.2 b.2⟩

instance : IsTrans (String × ℚ) expOrder :=
  ⟨fun _ _ _ h1 h2 => le_trans h1 h2⟩

/-! ### Position assignment -/

theorem setPositions_get? (l : List StandingRow) :
    ∀ (n i : Nat), (setPositions n l).get? i =
      (l.get? i).map fun r => { r with position := n + i } := by
  induction l with
  | nil => intro n i; simp [setPositions]
  | cons r rs ih =>
    intro n i
    cases i with
    | zero => simp [setPositions]
    | succ j =>
      have harith : n + 1 + j = n + (j + 1) := by omega
      simp only [setPositions, List.get?_cons_succ, ih (n + 1) j, harith]

theorem setPositions_length (l : List StandingRow) (n : Nat) :
    (setPositions n l).length = l.length := by
  induction l generalizing n with
  | nil => simp [setPositions]
  | cons r rs ih => simp [setPositions, ih]

theorem mem_setPositions {x : StandingRow} {n : Nat} {l : List StandingRow} :
    x ∈ setPositions n l ↔
      ∃ i r, l.get? i = some r ∧ x = { r with position := n + i } := by
  rw [List.mem_iff_get?]
  constructor
  · rintro ⟨i, hi⟩
    rw [setPositions_get? l n i] at hi
    cases hr : l.get? i with
    | none => rw [hr] at hi; cases hi
    | some r =>
      rw [hr] at hi
      simp only [Option.map_some'] at hi
      exact ⟨i, r, hr, (Option.some_inj.mp hi).symm⟩
  · rintro ⟨i, r, hr, rfl⟩
    exact ⟨i, by rw [setPositions_get? l n i, hr]; rfl⟩

theorem setPositions_map_points (l : List StandingRow) (n : Nat) :
    (setPositions n l).map (fun r => r.points) = l.map fun r => r.points := by
  induction l generalizing n with
  | nil => rfl
  | cons r rs ih => simp [setPositions, ih]

theorem setPositions_map_team (l : List StandingRow) (n : Nat) :
    (setPositions n l).map (fun r => r.team) = l.map fun r => r.team := by
  induction l generalizing n with
  | nil => rfl
  | cons r rs ih => simp [setPositions, ih]

/-! ### Parser facts -/

theorem splitDash_no_dash (s : List Char) (h : '-' ∉ s) : splitDash s = [s] := by
  induction s with
  | nil => rfl
  | cons c cs ih =>
    have hc : ¬ c = '-' := fun hcc => h (hcc ▸ List.mem_cons_self c cs)
    have hcs : '-' ∉ cs := fun hm => h (List.mem_cons_of_mem c hm)
    simp only [splitDash, if_neg hc, ih hcs]

theorem splitDash_append (s1 s2 : List Char) (h : '-' ∉ s1) :
    splitDash (s1 ++ '-' :: s2) = s1 :: splitDash s2 := by
  induction s1 with
  | nil => simp [splitDash]
  | cons c cs ih =>
    have hc : ¬ c = '-' := fun hcc => h (hcc ▸ List.mem_cons_self c cs)
    have hcs : '-' ∉ cs := fun hm => h (List.mem_cons_of_mem c hm)
    simp only [List.cons_append, splitDash, if_neg hc, List.append_eq, ih hcs]

theorem not_dash_of_all_digits {s : List Char} (h : s.all Char.isDigit = true) :
    '-' ∉ s := by
  intro hm
  have := List.all_eq_true.mp h '-' hm
  simp [Char.isDigit] at this

theorem pyInt_digits (ds : List Char) (hne : ds ≠ [])
    (hd : ds.all Char.isDigit = true) : pyInt ds = some ((digitsVal ds : Nat) : Int) := by
  cases ds with
  | nil => exact absurd rfl hne
  | cons c cs =>
    have hc : c.isDigit = true := List.all_eq_true.mp hd c (List.mem_cons_self c cs)
    have hcd : ¬ c = '-' := by rintro rfl; simp [Char.isDigit] at hc
    have hcp : ¬ c = '+' := by rintro rfl; simp [Char.isDigit] at hc
    simp only [pyInt, if_neg hcd, if_neg hcp, if_pos hd]

theorem parseRow_none_iff (r : RawRow) : parseRow r = none ↔ scoreBad r := by
  unfold parseRow scoreBad
  simp only [List.get?_eq_getElem?]
  cases hft : r.ft with
  | none => simp
  | some s =>
    cases h0 : (splitDash s)[0]? with
    | none => simp [h0]
    | some g1 =>
      cases h1 : (splitDash s)[1]? with
      | none => simp [h0, h1]
      | some g2 =>
        cases hp1 : pyInt g1 with
        | none => simp [h0, h1, hp1]
        | some v1 =>
          cases hp2 : pyInt g2 with
          | none => simp [h0, h1, hp1, hp2]
          | some v2 => simp [h0, h1, hp1, hp2]

theorem parseRows_none_iff (rows : List RawRow) :
    parseRows rows = none ↔ ∃ r ∈ rows, parseRow r = none := by
  induction rows with
  | nil => simp [parseRows]
  | cons a l ih =>
    rw [parseRows]
    cases h : parseRow a with
    | none => simp [h]
    | some m =>
      cases h2 : parseRows l with
      | none =>
        constructor
        · intro _
          obtain ⟨r, hr, hn⟩ := ih.mp h2
          exact ⟨r, List.mem_cons_of_mem a hr, hn⟩
        · intro _; rfl
      | some ms =>
        constructor
        · intro hc; cases hc
        · rintro ⟨r, hr, hn⟩
          rcases List.mem_cons.mp hr with rfl | hr2
          · rw [h] at hn; cases hn
          · have := ih.mpr ⟨r, hr2, hn⟩
            rw [h2] at this; cases this

theorem parseRows_some (rows : List RawRow) (out : List Match)
    (h : parseRows rows = some out) :
    out.length = rows.length ∧ ∀ i, out.get? i = (rows.get? i).bind parseRow := by
  induction rows generalizing out with
  | nil =>
    simp only [parseRows, Option.some_inj] at h
    subst h
    exact ⟨rfl, fun i => by cases i <;> rfl⟩
  | cons a l ih =>
    rw [parseRows] at h
    cases ha : parseRow a with
    | none => rw [ha] at h; cases h
    | some m =>
      rw [ha] at h
      cases hl : parseRows l with
      | none => rw [hl] at h; cases h
      | some ms =>
        rw [hl] at h
        have h2 : m :: ms = out := Option.some_inj.mp h
        subst h2
        obtain ⟨hlen, hget⟩ := ih ms hl
        refine ⟨by simp [hlen], fun i => ?_⟩
        cases i with
        | zero => simp [ha]
        | succ j => simpa using hget j

/-! ### Accumulator facts -/

theorem getStats_upd (acc : List (String × TeamStats)) (t u : String)
    (f : TeamStats → TeamStats) :
    getStats (upd acc t f) u =
      if u = t then f (getStats acc t) else getStats acc u := by
  induction acc with
  | nil =>
    by_cases h : u = t
    · subst h; simp [upd, getStats]
    · simp [upd, getStats, h, Ne.symm h]
  | cons p rest ih =>
    obtain ⟨v, s⟩ := p
    by_cases hvt : v = t
    · subst hvt
      by_cases hu : u = v
      · subst hu; simp [upd, getStats]
      · simp [upd, getStats, hu, Ne.symm hu]
    · by_cases hu : u = v
      · subst hu
        simp [upd, hvt, getStats]
      · simp [upd, hvt, getStats, hu, Ne.symm hu, ih]

theorem keys_upd (acc : List (String × TeamStats)) (t : String)
    (f : TeamStats → TeamStats) :
    (upd acc t f).map Prod.fst =
      if t ∈ acc.map Prod.fst then acc.map Prod.fst
      else acc.map Prod.fst ++ [t] := by
  induction acc with
  | nil => simp [upd]
  | cons p rest ih =>
    obtain ⟨v, s⟩ := p
    by_cases hvt : v = t
    · subst hvt; simp [upd]
    · simp only [upd, if_neg hvt, List.map_cons, ih]
      by_cases hmem : t ∈ rest.map Prod.fst
      · simp [hmem, Ne.symm hvt]
      · simp [hmem, Ne.symm hvt, hvt]

theorem keys_upd_nodup (acc : List (String × TeamStats)) (t : String)
    (f : TeamStats → TeamStats) (h : (acc.map Prod.fst).Nodup) :
    ((upd acc t f).map Prod.fst).Nodup := by
  rw [keys_upd]
  by_cases hmem : t ∈ acc.map Prod.fst
  · simpa [hmem] using h
  · simp [hmem, List.nodup_append, h]

theorem step_keys_nodup (acc : List (String × TeamStats)) (m : Match)
    (h : (acc.map Prod.fst).Nodup) : ((step acc m).map Prod.fst).Nodup := by
  unfold step
  split
  · exact keys_upd_nodup _ _ _ (keys_upd_nodup _ _ _
      (keys_upd_nodup _ _ _ (keys_upd_nodup _ _ _ h)))
  · split
    · exact keys_upd_nodup _ _ _ (keys_upd_nodup _ _ _
        (keys_upd_nodup _ _ _ (keys_upd_nodup _ _ _ h)))
    · exact keys_upd_nodup _ _ _ (keys_upd_nodup _ _ _
        (keys_upd_nodup _ _ _ (keys_upd_nodup _ _ _ h)))

theorem accumulate_keys_nodup (ms : List Match) :
    ((accumulate ms).map Prod.fst).Nodup := by
  have main : ∀ (l : List Match) (acc : List (String × TeamStats)),
      (acc.map Prod.fst).Nodup → (((l.foldl step acc).map Prod.fst)).Nodup := by
    intro l
    induction l with
    | nil => intro acc h; exact h
    | cons m rest ih =>
      intro acc h
      exact ih (step acc m) (step_keys_nodup acc m h)
  exact main ms [] (by simp)

theorem getStats_of_mem (acc : List (String × TeamStats))
    (h : (acc.map Prod.fst).Nodup) (p : String × TeamStats) (hp : p ∈ acc) :
    getStats acc p.1 = p.2 := by
  induction acc with
  | nil => cases hp
  | cons q rest ih =>
    rcases List.mem_cons.mp hp with rfl | hp2
    · simp [getStats]
    · have hq : q.1 ≠ p.1 := by
        intro he
        have : q.1 ∈ rest.map Prod.fst := he ▸ List.mem_map.mpr ⟨p, hp2, rfl⟩
        exact (List.nodup_cons.mp h).1 this
      simp only [getStats, if_neg hq]
      exact ih (List.nodup_cons.mp h).2 hp2

/-- Total points held in the accumulator. -/
def ptsSum (acc : List (String × TeamStats)) : Int :=
  (acc.map fun p => p.2.points).sum

theorem ptsSum_upd (acc : List (String × TeamStats)) (t : String)
    (f : TeamStats → TeamStats) (d : Int)
    (hf : ∀ s, (f s).points = s.points + d) :
    ptsSum (upd acc t f) = ptsSum acc + d := by
  induction acc with
  | nil => simp [upd, ptsSum, hf, emptyStats]
  | cons p rest ih =>
    obtain ⟨v, s⟩ := p
    by_cases hvt : v = t
    · have hu : upd ((v, s) :: rest) t f = (v, f s) :: rest := by simp [upd, hvt]
      rw [hu]
      simp only [ptsSum, List.map_cons, List.sum_cons, hf]
      ring
    · have hu : upd ((v, s) :: rest) t f = (v, s) :: upd rest t f := by
        simp [upd, hvt]
      rw [hu]
      simp only [ptsSum, List.map_cons, List.sum_cons] at ih ⊢
      rw [ih]
      ring

theorem ptsSum_step (acc : List (String × TeamStats)) (m : Match) :
    ptsSum (step acc m) = ptsSum acc + (if m.hg = m.ag then 2 else 3) := by
  have hg0 : ∀ s, (addGoals m.hg m.ag s).points = s.points + 0 := by
    intro s; simp [addGoals]
  have hg1 : ∀ s, (addGoals m.ag m.hg s).points = s.points + 0 := by
    intro s; simp [addGoals]
  have hw : ∀ s, (addWin s).points = s.points + 3 := by intro s; simp [addWin]
  have hl : ∀ s, (addLoss s).points = s.points + 0 := by intro s; simp [addLoss]
  have hd : ∀ s, (addDraw s).points = s.points + 1 := by intro s; simp [addDraw]
  simp only [step]
  rcases lt_trichotomy m.ag m.hg with hcmp | hcmp | hcmp
  · rw [if_pos hcmp, ptsSum_upd _ _ _ 0 hl, ptsSum_upd _ _ _ 3 hw,
      ptsSum_upd _ _ _ 0 hg1, ptsSum_upd _ _ _ 0 hg0,
      if_neg (ne_of_gt hcmp)]
    ring
  · rw [if_neg (by omega), if_neg (by omega), ptsSum_upd _ _ _ 1 hd,
      ptsSum_upd _ _ _ 1 hd, ptsSum_upd _ _ _ 0 hg1, ptsSum_upd _ _ _ 0 hg0,
      if_pos hcmp.symm]
    ring
  · rw [if_neg (by omega), if_pos hcmp, ptsSum_upd _ _ _ 0 hl,
      ptsSum_upd _ _ _ 3 hw, ptsSum_upd _ _ _ 0 hg1, ptsSum_upd _ _ _ 0 hg0,
      if_neg (ne_of_lt hcmp)]
    ring

theorem ptsSum_foldl (l : List Match) : ∀ acc : List (String × TeamStats),
    ptsSum (l.foldl step acc) =
      ptsSum acc + 3 * ((l.filter fun m => m.hg ≠ m.ag).length : Int) +
        2 * ((l.filter fun m => m.hg = m.ag).length : Int) := by
  induction l with
  | nil => intro acc; simp [ptsSum]
  | cons m rest ih =>
    intro acc
    rw [List.foldl_cons, ih (step acc m), ptsSum_step]
    by_cases h : m.hg = m.ag
    · simp [List.filter_cons, h]
      try push_cast
      try ring
    · simp [List.filter_cons, h]
      try push_cast
      try ring

/-- A predicate holding of every entry of the accumulator is kept by an
update whose function preserves it. -/
theorem getStats_upd_pres (P : TeamStats → Prop) (acc : List (String × TeamStats))
    (t : String) (f : TeamStats → TeamStats)
    (hf : ∀ s, P s → P (f s)) (h : ∀ u, P (getStats acc u)) :
    ∀ u, P (getStats (upd acc t f) u) := by
  intro u
  rw [getStats_upd]
  by_cases hu : u = t
  · rw [if_pos hu]; exact hf _ (h t)
  · rw [if_neg hu]; exact h u

theorem step_pres (P : TeamStats → Prop) (acc : List (String × TeamStats)) (m : Match)
    (hgoals : ∀ a b s, P s → P (addGoals a b s))
    (hwin : ∀ s, P s → P (addWin s)) (hloss : ∀ s, P s → P (addLoss s))
    (hdraw : ∀ s, P s → P (addDraw s)) (h : ∀ u, P (getStats acc u)) :
    ∀ u, P (getStats (step acc m) u) := by
  simp only [step]
  rcases lt_trichotomy m.ag m.hg with hcmp | hcmp | hcmp
  · rw [if_pos hcmp]
    exact getStats_upd_pres P _ _ _ hloss (getStats_upd_pres P _ _ _ hwin
      (getStats_upd_pres P _ _ _ (hgoals _ _) (getStats_upd_pres P _ _ _ (hgoals _ _) h)))
  · rw [if_neg (by omega), if_neg (by omega)]
    exact getStats_upd_pres P _ _ _ hdraw (getStats_upd_pres P _ _ _ hdraw
      (getStats_upd_pres P _ _ _ (hgoals _ _) (getStats_upd_pres P _ _ _ (hgoals _ _) h)))
  · rw [if_neg (by omega), if_pos hcmp]
    exact getStats_upd_pres P _ _ _ hloss (getStats_upd_pres P _ _ _ hwin
      (getStats_upd_pres P _ _ _ (hgoals _ _) (getStats_upd_pres P _ _ _ (hgoals _ _) h)))

/-- Every accumulator entry satisfies `points = 3 * wins + draws`. -/
theorem accumulate_points_inv (ms : List Match) (t : String) :
    (getStats (accumulate ms) t).points =
      3 * (getStats (accumulate ms) t).wins + (getStats (accumulate ms) t).draws := by
  have main : ∀ (l : List Match) (acc : List (String × TeamStats)),
      (∀ u, (getStats acc u).points = 3 * (getStats acc u).wins + (getStats acc u).draws) →
      ∀ u, (getStats (l.foldl step acc) u).points =
        3 * (getStats (l.foldl step acc) u).wins + (getStats (l.foldl step acc) u).draws := by
    intro l
    induction l with
    | nil => intro acc h; exact h
    | cons m rest ih =>
      intro acc h
      refine ih (step acc m) ?_
      refine step_pres (fun s => s.points = 3 * s.wins + s.draws) acc m ?_ ?_ ?_ ?_ h
      · intro a b s hs; simpa [addGoals] using hs
      · intro s hs; simp [addWin]; omega
      · intro s hs; simpa [addLoss] using hs
      · intro s hs; simp [addDraw]; omega
  exact main ms [] (fun u => by simp [getStats, emptyStats]) t

/-- Wins, draws and losses of an entry, totalled. -/
def wdlOf (s : TeamStats) : Int := s.wins + s.draws + s.losses

theorem getStats_upd_g (g : TeamStats → Int) (acc : List (String × TeamStats))
    (t : String) (f : TeamStats → TeamStats) (d : Int)
    (hf : ∀ s, g (f s) = g s + d) (u : String) :
    g (getStats (upd acc t f) u) = g (getStats acc u) + if u = t then d else 0 := by
  rw [getStats_upd]
  by_cases hu : u = t
  · rw [if_pos hu, if_pos hu, hf, hu]
  · rw [if_neg hu, if_neg hu, add_zero]

theorem step_wdl (acc : List (String × TeamStats)) (m : Match) (t : String) :
    wdlOf (getStats (step acc m) t) = wdlOf (getStats acc t) +
      (if t = m.home then 1 else 0) + (if t = m.away then 1 else 0) := by
  have hg0 : ∀ s, wdlOf (addGoals m.hg m.ag s) = wdlOf s + 0 := by
    intro s; simp [addGoals, wdlOf]
  have hg1 : ∀ s, wdlOf (addGoals m.ag m.hg s) = wdlOf s + 0 := by
    intro s; simp [addGoals, wdlOf]
  have hw : ∀ s, wdlOf (addWin s) = wdlOf s + 1 := by
    intro s; simp [addWin, wdlOf]; ring
  have hl : ∀ s, wdlOf (addLoss s) = wdlOf s + 1 := by
    intro s; simp [addLoss, wdlOf]; ring
  have hd : ∀ s, wdlOf (addDraw s) = wdlOf s + 1 := by
    intro s; simp [addDraw, wdlOf]; ring
  simp only [step]
  rcases lt_trichotomy m.ag m.hg with hcmp | hcmp | hcmp
  · rw [if_pos hcmp, getStats_upd_g wdlOf _ _ _ 1 hl, getStats_upd_g wdlOf _ _ _ 1 hw,
      getStats_upd_g wdlOf _ _ _ 0 hg1, getStats_upd_g wdlOf _ _ _ 0 hg0]
    simp only [ite_self]
    ring
  · rw [if_neg (by omega), if_neg (by omega), getStats_upd_g wdlOf _ _ _ 1 hd,
      getStats_upd_g wdlOf _ _ _ 1 hd, getStats_upd_g wdlOf _ _ _ 0 hg1,
      getStats_upd_g wdlOf _ _ _ 0 hg0]
    simp only [ite_self]
    ring
  · rw [if_neg (by omega), if_pos hcmp, getStats_upd_g wdlOf _ _ _ 1 hl,
      getStats_upd_g wdlOf _ _ _ 1 hw, getStats_upd_g wdlOf _ _ _ 0 hg1,
      getStats_upd_g wdlOf _ _ _ 0 hg0]
    simp only [ite_self]
    ring

theorem accumulate_wdl (ms : List Match) (t : String) :
    wdlOf (getStats (accumulate ms) t) =
      ((ms.filter fun m => m.home = t).length : Int) +
        ((ms.filter fun m => m.away = t).length : Int) := by
  have main : ∀ (l : List Match) (acc : List (String × TeamStats)),
      wdlOf (getStats (l.foldl step acc) t) =
        wdlOf (getStats acc t) + ((l.filter fun m => m.home = t).length : Int) +
          ((l.filter fun m => m.away = t).length : Int) := by
    intro l
    induction l with
    | nil => intro acc; simp
    | cons m rest ih =>
      intro acc
      rw [List.foldl_cons, ih (step acc m), step_wdl]
      by_cases hh : m.home = t
      · by_cases ha : m.away = t
        · rw [if_pos hh.symm, if_pos ha.symm]
          simp [List.filter_cons, hh, ha]
          try push_cast
          try ring
        · rw [if_pos hh.symm, if_neg (Ne.symm ha)]
          simp [List.filter_cons, hh, ha]
          try push_cast
          try ring
      · by_cases ha : m.away = t
        · rw [if_neg (Ne.symm hh), if_pos ha.symm]
          simp [List.filter_cons, hh, ha]
          try push_cast
          try ring
        · rw [if_neg (Ne.symm hh), if_neg (Ne.symm ha)]
          simp [List.filter_cons, hh, ha]
          try push_cast
          try ring
  have h := main ms []
  have h0 : wdlOf (getStats [] t) = 0 := by simp [getStats, wdlOf, emptyStats]
  rw [h0] at h
  simpa [accumulate] using h

/-! ### Standings facts -/

theorem summarise_core_perm (ms : List Match) :
    (List.insertionSort standingOrder ((accumulate ms).map rowOf)).Perm
      ((accumulate ms).map rowOf) :=
  List.perm_insertionSort standingOrder ((accumulate ms).map rowOf)

theorem mem_summarise_core (ms : List Match) (r : StandingRow)
    (hr : r ∈ summarise_core ms) :
    r.points = (getStats (accumulate ms) r.team).points ∧
    r.wins = (getStats (accumulate ms) r.team).wins ∧
    r.draws = (getStats (accumulate ms) r.team).draws ∧
    r.losses = (getStats (accumulate ms) r.team).losses ∧
    r.goals_for = (getStats (accumulate ms) r.team).goals_for ∧
    r.goals_against = (getStats (accumulate ms) r.team).goals_against ∧
    r.goal_diff = (getStats (accumulate ms) r.team).goals_for -
      (getStats (accumulate ms) r.team).goals_against := by
  unfold summarise_core at hr
  obtain ⟨i, r0, hi, rfl⟩ := mem_setPositions.mp hr
  have hr0 : r0 ∈ List.insertionSort standingOrder ((accumulate ms).map rowOf) :=
    List.get?_mem hi
  have hr0m : r0 ∈ (accumulate ms).map rowOf := (summarise_core_perm ms).mem_iff.mp hr0
  obtain ⟨p, hp, rfl⟩ := List.mem_map.mp hr0m
  have hst := getStats_of_mem (accumulate ms) (accumulate_keys_nodup ms) p hp
  simp [rowOf, hst]

/-- The sorted standing is `Pairwise` ordered by the descending key order. -/
theorem summarise_core_sorted (ms : List Match) :
    List.Pairwise standingOrder
      (List.insertionSort standingOrder ((accumulate ms).map rowOf)) :=
  List.sorted_insertionSort standingOrder ((accumulate ms).map rowOf)

theorem summarise_season_eq (ms : List Match) (s : List StandingRow)
    (h : summarise_season ms = some s) : s = summarise_core ms ∧ ms ≠ [] := by
  unfold summarise_season at h
  by_cases he : ms.isEmpty
  · rw [if_pos he] at h; cases h
  · rw [if_neg he] at h
    exact ⟨(Option.some_inj.mp h).symm, fun hne => he (by simp [hne])⟩

theorem filter_or_length (ms : List Match) (t : String)
    (hns : ∀ m ∈ ms, m.home ≠ m.away) :
    ((ms.filter fun m => m.home = t ∨ m.away = t).length : Int) =
      ((ms.filter fun m => m.home = t).length : Int) +
        ((ms.filter fun m => m.away = t).length : Int) := by
  induction ms with
  | nil => simp
  | cons m rest ih =>
    have hmr : ∀ x ∈ rest, x.home ≠ x.away :=
      fun x hx => hns x (List.mem_cons_of_mem m hx)
    have hm : m.home ≠ m.away := hns m (List.mem_cons_self m rest)
    have ihr := ih hmr
    by_cases hh : m.home = t
    · have ha : ¬ m.away = t := fun hat => hm (hh.trans hat.symm)
      simp [List.filter_cons, hh, ha] at ihr ⊢
      try omega
    · by_cases ha : m.away = t
      · simp [List.filter_cons, hh, ha] at ihr ⊢
        try omega
      · simp [List.filter_cons, hh, ha] at ihr ⊢
        try omega

/-- C6: for every match table accepted by `summarise_season`, the sum of the
points column over all output rows equals `3 ×` (matches with unequal goal
counts) `+ 2 ×` (matches with equal goal counts). -/
theorem summarise_points_total (ms : List Match) (s : List StandingRow)
    (h : summarise_season ms = some s) :
    (s.map fun r => r.points).sum =
      3 * ((ms.filter fun m => m.hg ≠ m.ag).length : Int) +
        2 * ((ms.filter fun m => m.hg = m.ag).length : Int) := by
  obtain ⟨rfl, -⟩ := summarise_season_eq ms s h
  unfold summarise_core
  rw [setPositions_map_points]
  have hperm := (summarise_core_perm ms).map fun r => r.points
  rw [hperm.sum_eq, List.map_map]
  have hcomp : ((fun r => r.points) ∘ rowOf) =
      fun p : String × TeamStats => p.2.points := rfl
  rw [hcomp]
  have hfold := ptsSum_foldl ms []
  simp only [ptsSum, List.map_nil, List.sum_nil, zero_add] at hfold
  exact hfold

/-- Witness for C6: a three-match season with two decisive matches and one
draw; total points `8 = 3·2 + 2·1`. -/
theorem summarise_points_total_witness :
    (([⟨"A", 6, 2, 0, 0, 4, 1, 3, 1⟩, ⟨"C", 1, 0, 1, 1, 2, 3, -1, 2⟩,
        ⟨"B", 1, 0, 1, 1, 3, 5, -2, 3⟩] : List StandingRow).map fun r => r.points).sum =
      3 * ((([⟨"A", "B", 3, 1⟩, ⟨"B", "C", 2, 2⟩, ⟨"C", "A", 0, 1⟩] : List Match).filter
          fun m => m.hg ≠ m.ag).length : Int) +
        2 * ((([⟨"A", "B", 3, 1⟩, ⟨"B", "C", 2, 2⟩, ⟨"C", "A", 0, 1⟩] : List Match).filter
          fun m => m.hg = m.ag).length : Int) :=
  summarise_points_total _ _ (by decide)

/-- C7: among accepted standings rows, equal points with strictly larger
goal difference forces a strictly smaller position, and equal points and
goal difference with strictly larger goals scored forces a strictly smaller
position. -/
theorem summarise_tiebreak (ms : List Match) (s : List StandingRow)
    (h : summarise_season ms = some s) (x y : StandingRow)
    (hx : x ∈ s) (hy : y ∈ s) (hpts : x.points = y.points) :
    (y.goal_diff < x.goal_diff → x.position < y.position) ∧
    (x.goal_diff = y.goal_diff → y.goals_for < x.goals_for →
      x.position < y.position) := by
  obtain ⟨rfl, -⟩ := summarise_season_eq ms s h
  unfold summarise_core at hx hy
  obtain ⟨i, rx, hix, hxe⟩ := mem_setPositions.mp hx
  obtain ⟨j, ry, hjy, hye⟩ := mem_setPositions.mp hy
  obtain ⟨hilt, hig⟩ := List.get?_eq_some.mp hix
  obtain ⟨hjlt, hjg⟩ := List.get?_eq_some.mp hjy
  have hsorted := summarise_core_sorted ms
  rw [List.pairwise_iff_get] at hsorted
  subst hxe hye
  simp only at hpts ⊢
  constructor
  · intro hgd
    by_contra hpos
    push_neg at hpos
    rcases Nat.lt_trichotomy j i with hlt | heq | hgt
    · have hrel := hsorted ⟨j, hjlt⟩ ⟨i, hilt⟩ hlt
      rw [hjg, hig] at hrel
      unfold standingOrder lexLE keyOf at hrel
      simp only at hrel
      rcases hrel with h1 | ⟨h1, h2 | ⟨h2, h3⟩⟩ <;> omega
    · subst heq
      rw [hig] at hjg
      subst hjg
      omega
    · omega
  · intro hgde hgf
    by_contra hpos
    push_neg at hpos
    rcases Nat.lt_trichotomy j i with hlt | heq | hgt
    · have hrel := hsorted ⟨j, hjlt⟩ ⟨i, hilt⟩ hlt
      rw [hjg, hig] at hrel
      unfold standingOrder lexLE keyOf at hrel
      simp only at hrel
      rcases hrel with h1 | ⟨h1, h2 | ⟨h2, h3⟩⟩ <;> omega
    · subst heq
      rw [hig] at hjg
      subst hjg
      omega
    · omega

/-- Witness for C7 at a six-team season: `A` (3 pts, gd 2) finishes above
`C` (3 pts, gd 1), and `E` (3 pts, gd 1, gf 3) finishes above `C` (3 pts,
gd 1, gf 1). -/
theorem summarise_tiebreak_witness : ((1 : Nat) < 3) ∧ ((2 : Nat) < 3) := by
  have h1 := summarise_tiebreak
    [⟨"A", "B", 2, 0⟩, ⟨"C", "D", 1, 0⟩, ⟨"E", "F", 3, 2⟩]
    [⟨"A", 3, 1, 0, 0, 2, 0, 2, 1⟩, ⟨"E", 3, 1, 0, 0, 3, 2, 1, 2⟩,
      ⟨"C", 3, 1, 0, 0, 1, 0, 1, 3⟩, ⟨"F", 0, 0, 0, 1, 2, 3, -1, 4⟩,
      ⟨"D", 0, 0, 0, 1, 0, 1, -1, 5⟩, ⟨"B", 0, 0, 0, 1, 0, 2, -2, 6⟩]
    (by decide) ⟨"A", 3, 1, 0, 0, 2, 0, 2, 1⟩ ⟨"C", 3, 1, 0, 0, 1, 0, 1, 3⟩
    (by decide) (by decide) (by decide)
  have h2 := summarise_tiebreak
    [⟨"A", "B", 2, 0⟩, ⟨"C", "D", 1, 0⟩, ⟨"E", "F", 3, 2⟩]
    [⟨"A", 3, 1, 0, 0, 2, 0, 2, 1⟩, ⟨"E", 3, 1, 0, 0, 3, 2, 1, 2⟩,
      ⟨"C", 3, 1, 0, 0, 1, 0, 1, 3⟩, ⟨"F", 0, 0, 0, 1, 2, 3, -1, 4⟩,
      ⟨"D", 0, 0, 0, 1, 0, 1, -1, 5⟩, ⟨"B", 0, 0, 0, 1, 0, 2, -2, 6⟩]
    (by decide) ⟨"E", 3, 1, 0, 0, 3, 2, 1, 2⟩ ⟨"C", 3, 1, 0, 0, 1, 0, 1, 3⟩
    (by decide) (by decide) (by decide)
  exact ⟨h1.1 (by decide), h2.2 (by decide) (by decide)⟩

/-- C10 (amended): every accepted output row has `points = 3·wins + draws`;
`wins + draws + losses` equals home-side appearances plus away-side
appearances, which equals the number of matches involving the team whenever
no match lists the same club on both sides. -/
theorem summarise_row_balance (ms : List Match) (s : List StandingRow)
    (h : summarise_season ms = some s) (r : StandingRow) (hr : r ∈ s) :
    r.points = 3 * r.wins + r.draws ∧
    r.wins + r.draws + r.losses =
      ((ms.filter fun m => m.home = r.team).length : Int) +
        ((ms.filter fun m => m.away = r.team).length : Int) ∧
    ((∀ m ∈ ms, m.home ≠ m.away) →
      r.wins + r.draws + r.losses =
        ((ms.filter fun m => m.home = r.team ∨ m.away = r.team).length : Int)) := by
  obtain ⟨rfl, -⟩ := summarise_season_eq ms s h
  obtain ⟨hp, hw, hd, hl, -, -, -⟩ := mem_summarise_core ms r hr
  refine ⟨?_, ?_, ?_⟩
  · rw [hp, hw, hd]; exact accumulate_points_inv ms r.team
  · rw [hw, hd, hl]
    have h1 := accumulate_wdl ms r.team
    simpa [wdlOf] using h1
  · intro hns
    rw [hw, hd, hl]
    have h1 := accumulate_wdl ms r.team
    have h2 := filter_or_length ms r.team hns
    simp only [wdlOf] at h1
    omega

/-- Witness for C10 (amended) at a two-match season without self-matches:
team `A` has 4 points `= 3·1 + 1` and `wins+draws+losses = 2`, its number
of appearances. -/
theorem summarise_row_balance_witness :
    ((4 : Int) = 3 * 1 + 1) ∧
    ((1 : Int) + 1 + 0 =
      ((([⟨"A", "B", 2, 0⟩, ⟨"B", "A", 1, 1⟩] : List Match).filter
          fun m => m.home = "A").length : Int) +
        ((([⟨"A", "B", 2, 0⟩, ⟨"B", "A", 1, 1⟩] : List Match).filter
          fun m => m.away = "A").length : Int)) ∧
    ((1 : Int) + 1 + 0 =
      ((([⟨"A", "B", 2, 0⟩, ⟨"B", "A", 1, 1⟩] : List Match).filter
          fun m => m.home = "A" ∨ m.away = "A").length : Int)) := by
  have h := summarise_row_balance [⟨"A", "B", 2, 0⟩, ⟨"B", "A", 1, 1⟩]
    [⟨"A", 4, 1, 1, 0, 3, 1, 2, 1⟩, ⟨"B", 1, 0, 1, 1, 1, 3, -2, 2⟩] (by decide)
    ⟨"A", 4, 1, 1, 0, 3, 1, 2, 1⟩ (by decide)
  exact ⟨h.1, h.2.1, h.2.2 (by decide)⟩

/-- C10 counterexample: a row listing the same club on both sides.  The club
appears in exactly one match of the table, yet its output row records one
win and one loss, so `wins + draws + losses = 2 ≠ 1`. -/
theorem summarise_self_match_cex :
    summarise_season [(⟨"X", "X", 1, 0⟩ : Match)] =
      some [⟨"X", 3, 1, 0, 1, 1, 1, 0, 1⟩] ∧
    ((1 : Int) + 0 + 1 = 2) ∧
    ((([⟨"X", "X", 1, 0⟩] : List Match).filter
        fun m => m.home = "X" ∨ m.away = "X").length : Int) = 1 :=
  ⟨by decide, by decide, by decide⟩

theorem parseRow_some (r : RawRow) (m : Match) (h : parseRow r = some m) :
    ∃ s g1 g2 hg ag, r.ft = some s ∧ (splitDash s).get? 0 = some g1 ∧
      (splitDash s).get? 1 = some g2 ∧ pyInt g1 = some hg ∧ pyInt g2 = some ag ∧
      m = ⟨r.team1, r.team2, hg, ag⟩ := by
  unfold parseRow at h
  split at h
  · exact Option.noConfusion h
  · split at h
    · split at h
      · rename_i s hft x1 x2 g1 g2 h0 h1 x3 x4 hg ag hp1 hp2
        exact ⟨s, g1, g2, hg, ag, hft, h0, h1, hp1, hp2,
          (Option.some_inj.mp h).symm⟩
      · exact Option.noConfusion h
    · exact Option.noConfusion h

/-- C4 (amended): `parse_match_results` fails exactly when the table is
empty, or some row's score field is missing or lacks two dash-separated
segments whose first two members are both integer-parseable — segments
beyond the second are ignored rather than rejected.  Every success has one
output row per input row, carrying the two parsed goal counts of the first
two segments; and every nonempty table whose score fields all have the
shape `<digits>-<digits>` succeeds. -/
theorem parse_contract (rows : List RawRow) :
    (parse_match_results rows = none ↔ rows = [] ∨ ∃ r ∈ rows, scoreBad r) ∧
    (∀ out, parse_match_results rows = some out →
      out.length = rows.length ∧
      ∀ i r, rows.get? i = some r →
        ∃ s g1 g2 h a, r.ft = some s ∧ (splitDash s).get? 0 = some g1 ∧
          (splitDash s).get? 1 = some g2 ∧ pyInt g1 = some h ∧
          pyInt g2 = some a ∧ out.get? i = some ⟨r.team1, r.team2, h, a⟩) ∧
    (rows ≠ [] →
      (∀ r ∈ rows, ∃ d1 d2, r.ft = some (d1 ++ '-' :: d2) ∧ d1 ≠ [] ∧
        d2 ≠ [] ∧ d1.all Char.isDigit = true ∧ d2.all Char.isDigit = true) →
      (parse_match_results rows).isSome = true) := by
  refine ⟨?_, ?_, ?_⟩
  · unfold parse_match_results
    by_cases he : rows.isEmpty
    · rw [if_pos he]
      have hnil : rows = [] := by
        cases rows with
        | nil => rfl
        | cons a l => cases he
      simp [hnil]
    · rw [if_neg he]
      have hne : rows ≠ [] := by
        intro h0
        subst h0
        exact he rfl
      rw [parseRows_none_iff]
      constructor
      · rintro ⟨r, hr, hn⟩
        exact Or.inr ⟨r, hr, (parseRow_none_iff r).mp hn⟩
      · rintro (h0 | ⟨r, hr, hb⟩)
        · exact absurd h0 hne
        · exact ⟨r, hr, (parseRow_none_iff r).mpr hb⟩
  · intro out hout
    unfold parse_match_results at hout
    by_cases he : rows.isEmpty
    · rw [if_pos he] at hout; cases hout
    · rw [if_neg he] at hout
      obtain ⟨hlen, hget⟩ := parseRows_some rows out hout
      refine ⟨hlen, ?_⟩
      intro i r hr
      have hi2 : out.get? i = parseRow r := by
        rw [hget i, hr]
        rfl
      cases hm : parseRow r with
      | none =>
        exfalso
        rw [hm] at hi2
        have hil : i < out.length := hlen ▸ (List.get?_eq_some.mp hr).1
        rw [List.get?_eq_none] at hi2
        omega
      | some m =>
        obtain ⟨s, g1, g2, hg, ag, hft, h0, h1, hp1, hp2, hme⟩ := parseRow_some r m hm
        exact ⟨s, g1, g2, hg, ag, hft, h0, h1, hp1, hp2, by rw [hi2, hm, hme]⟩
  · intro hne hall
    unfold parse_match_results
    have hempty : rows.isEmpty = false := by
      cases rows with
      | nil => exact absurd rfl hne
      | cons a l => rfl
    rw [if_neg (by simp [hempty])]
    cases hp : parseRows rows with
    | some out => rfl
    | none =>
      exfalso
      obtain ⟨r, hr, hbad⟩ := (parseRows_none_iff rows).mp hp
      obtain ⟨d1, d2, hft, hd1ne, hd2ne, hd1, hd2⟩ := hall r hr
      have hnd1 : '-' ∉ d1 := not_dash_of_all_digits hd1
      have hnd2 : '-' ∉ d2 := not_dash_of_all_digits hd2
      have hsplit : splitDash (d1 ++ '-' :: d2) = [d1, d2] := by
        rw [splitDash_append d1 d2 hnd1, splitDash_no_dash d2 hnd2]
      have hgood : parseRow r =
          some ⟨r.team1, r.team2, ((digitsVal d1 : Nat) : Int), ((digitsVal d2 : Nat) : Int)⟩ := by
        unfold parseRow
        simp [hft, hsplit, pyInt_digits d1 hd1ne hd1, pyInt_digits d2 hd2ne hd2]
      rw [hgood] at hbad
      exact Option.noConfusion hbad

/-- Witness for C4 (amended): the one-row table with score `"3-1"` parses to
goals `3` and `1`, and satisfies the well-formedness sufficient condition. -/
theorem parse_contract_witness :
    (∃ s g1 g2 h a,
      (⟨"A", "B", some ('3' :: '-' :: '1' :: [])⟩ : RawRow).ft = some s ∧
      (splitDash s).get? 0 = some g1 ∧ (splitDash s).get? 1 = some g2 ∧
      pyInt g1 = some h ∧ pyInt g2 = some a ∧
      ([⟨"A", "B", 3, 1⟩] : List Match).get? 0 =
        some ⟨(⟨"A", "B", some ('3' :: '-' :: '1' :: [])⟩ : RawRow).team1,
          (⟨"A", "B", some ('3' :: '-' :: '1' :: [])⟩ : RawRow).team2, h, a⟩) ∧
    (parse_match_results [⟨"A", "B", some ('3' :: '-' :: '1' :: [])⟩]).isSome = true := by
  have h := parse_contract [⟨"A", "B", some ('3' :: '-' :: '1' :: [])⟩]
  refine ⟨?_, ?_⟩
  · exact (h.2.1 [⟨"A", "B", 3, 1⟩] (by decide)).2 0 _ rfl
  · refine h.2.2 (by decide) ?_
    intro r hr
    rcases List.mem_singleton.mp hr with rfl
    exact ⟨['3'], ['1'], rfl, by decide, by decide, by decide, by decide⟩

/-- C4 counterexample: the score `"1-2-3"` splits into three segments — the
claim requires a failure — yet the source parses it, taking goals `1` and
`2` from the first two segments; and the empty table, whose score fields
vacuously all have the required form, fails to parse. -/
theorem parse_extra_segments_cex :
    parse_match_results [⟨"A", "B", some ('1' :: '-' :: '2' :: '-' :: '3' :: [])⟩] =
      some [⟨"A", "B", 1, 2⟩] ∧
    (splitDash ('1' :: '-' :: '2' :: '-' :: '3' :: [])).length = 3 ∧
    parse_match_results ([] : List RawRow) = none :=
  ⟨by decide, by decide, by decide⟩

/-! ### Expected-position bounds -/

theorem listMinQ_le (l : List ℚ) (x : ℚ) (hx : x ∈ l) : listMinQ l ≤ x := by
  induction l with
  | nil => cases hx
  | cons a t ih =>
    cases t with
    | nil =>
      rcases List.mem_singleton.mp hx with rfl
      exact le_refl _
    | cons b t2 =>
      rcases List.mem_cons.mp hx with rfl | hx2
      · exact min_le_left _ _
      · exact le_trans (min_le_right _ _) (ih hx2)

theorem le_listMaxQ (l : List ℚ) (x : ℚ) (hx : x ∈ l) : x ≤ listMaxQ l := by
  induction l with
  | nil => cases hx
  | cons a t ih =>
    cases t with
    | nil =>
      rcases List.mem_singleton.mp hx with rfl
      exact le_refl _
    | cons b t2 =>
      rcases List.mem_cons.mp hx with rfl | hx2
      · exact le_max_left _ _
      · exact le_trans (ih hx2) (le_max_right _ _)

theorem dotQ_le_mul_sum : ∀ (p c : List ℚ) (M : ℚ), p.length = c.length →
    (∀ x ∈ p, 0 ≤ x) → (∀ y ∈ c, y ≤ M) → dotQ p c ≤ M * p.sum := by
  intro p
  induction p with
  | nil => intro c M _ _ _; simp [dotQ]
  | cons a p ih =>
    intro c M hlen hpos hM
    cases c with
    | nil => simp at hlen
    | cons b c =>
      have ha : 0 ≤ a := hpos a (List.mem_cons_self _ _)
      have hb : b ≤ M := hM b (List.mem_cons_self _ _)
      have hp2 : ∀ x ∈ p, 0 ≤ x := fun x hx => hpos x (List.mem_cons_of_mem _ hx)
      have hc2 : ∀ y ∈ c, y ≤ M := fun y hy => hM y (List.mem_cons_of_mem _ hy)
      have ih2 := ih c M (by simpa using hlen) hp2 hc2
      have hab : a * b ≤ a * M := mul_le_mul_of_nonneg_left hb ha
      calc dotQ (a :: p) (b :: c) = a * b + dotQ p c := by
            simp [dotQ]
        _ ≤ a * M + M * p.sum := add_le_add hab ih2
        _ = M * (a :: p).sum := by rw [List.sum_cons]; ring

theorem mul_sum_le_dotQ : ∀ (p c : List ℚ) (w : ℚ), p.length = c.length →
    (∀ x ∈ p, 0 ≤ x) → (∀ y ∈ c, w ≤ y) → w * p.sum ≤ dotQ p c := by
  intro p
  induction p with
  | nil => intro c w _ _ _; simp [dotQ]
  | cons a p ih =>
    intro c w hlen hpos hw
    cases c with
    | nil => simp at hlen
    | cons b c =>
      have ha : 0 ≤ a := hpos a (List.mem_cons_self _ _)
      have hb : w ≤ b := hw b (List.mem_cons_self _ _)
      have hp2 : ∀ x ∈ p, 0 ≤ x := fun x hx => hpos x (List.mem_cons_of_mem _ hx)
      have hc2 : ∀ y ∈ c, w ≤ y := fun y hy => hw y (List.mem_cons_of_mem _ hy)
      have ih2 := ih c w (by simpa using hlen) hp2 hc2
      have hab : a * w ≤ a * b := mul_le_mul_of_nonneg_left hb ha
      calc w * (a :: p).sum = a * w + w * p.sum := by rw [List.sum_cons]; ring
        _ ≤ a * b + dotQ p c := add_le_add hab ih2
        _ = dotQ (a :: p) (b :: c) := by simp [dotQ]

theorem mem_setRanks {x : PredRow} : ∀ {n : Nat} {l : List (String × ℚ)},
    x ∈ setRanks n l → ∃ te ∈ l, x.team = te.1 ∧ x.expected_position = te.2 := by
  intro n l
  induction l generalizing n with
  | nil => intro h; cases h
  | cons te rest ih =>
    intro h
    rcases List.mem_cons.mp h with rfl | h2
    · exact ⟨te, List.mem_cons_self _ _, rfl, rfl⟩
    · obtain ⟨te2, hm, h1, h2e⟩ := ih h2
      exact ⟨te2, List.mem_cons_of_mem _ hm, h1, h2e⟩

/-- C8: each expected position produced by `predict_league_table` is a
probability-weighted sum of the class labels, so for probability rows that
are nonnegative, sum to one and align with the class vector, it lies within
`[least class label, greatest class label]`. -/
theorem expected_position_bounds (probas : List (List ℚ)) (classes : List ℚ)
    (teams : List String) (hcls : classes ≠ [])
    (hp : ∀ p ∈ probas, (∀ x ∈ p, 0 ≤ x) ∧ p.sum = 1 ∧ p.length = classes.length) :
    ∀ pr ∈ predict_league_table probas classes teams,
      listMinQ classes ≤ pr.expected_position ∧
        pr.expected_position ≤ listMaxQ classes := by
  intro pr hpr
  unfold predict_league_table at hpr
  obtain ⟨te, hte, -, hexp⟩ := mem_setRanks hpr
  have hte2 : te ∈ teams.zip (probas.map fun q => dotQ q classes) :=
    (List.perm_insertionSort expOrder _).mem_iff.mp hte
  obtain ⟨t, e⟩ := te
  have he : e ∈ probas.map fun q => dotQ q classes := (List.of_mem_zip hte2).2
  obtain ⟨q, hq, hqe⟩ := List.mem_map.mp he
  obtain ⟨hqpos, hqsum, hqlen⟩ := hp q hq
  rw [hexp]
  simp only
  subst hqe
  constructor
  · have hlow := mul_sum_le_dotQ q classes (listMinQ classes) hqlen hqpos
      (fun y hy => listMinQ_le classes y hy)
    rw [hqsum, mul_one] at hlow
    exact hlow
  · have hhigh := dotQ_le_mul_sum q classes (listMaxQ classes) hqlen hqpos
      (fun y hy => le_listMaxQ classes y hy)
    rw [hqsum, mul_one] at hhigh
    exact hhigh

/-- Witness for C8: one team, probability row `[0, 1]` over class labels
`[1, 2]`. -/
theorem expected_position_bounds_witness :
    listMinQ [(1 : ℚ), 2] ≤ dotQ [0, 1] [(1 : ℚ), 2] ∧
      dotQ [0, 1] [(1 : ℚ), 2] ≤ listMaxQ [(1 : ℚ), 2] := by
  have h := expected_position_bounds [[0, 1]] [(1 : ℚ), 2] ["T"] (by simp)
    (by
      intro p hp
      rcases List.mem_singleton.mp hp with rfl
      refine ⟨?_, by simp, by simp⟩
      intro x hx
      rcases List.mem_cons.mp hx with rfl | hx2
      · exact le_refl _
      · rcases List.mem_singleton.mp hx2 with rfl
        exact zero_le_one)
  exact h ⟨1, "T", dotQ [0, 1] [(1 : ℚ), 2]⟩ (List.mem_singleton.mpr rfl)

/-! ### Training set facts -/

theorem training_pairs_get? (prev curr : List StandingRow) (i : Nat) :
    (training_pairs prev curr).get? i = (curr.get? i).map fun row =>
      (match lookupTeam prev row.team with
       | some p => featuresOfRow p
       | none => defaultFeatures prev, row.position) := by
  unfold training_pairs
  rw [List.get?_eq_getElem?, List.get?_eq_getElem?, List.getElem?_map]

/-- C1: for every consecutive season pair, the training block holds exactly
one `(features, label)` example per row of the next season's standing, in
standing order; the label is that row's position, and whenever the team has
a row in the previous standing the features are that row's seven-column
slice.  The training matrix and label vector of `prepare_training_data` are
the concatenation of these blocks over all consecutive summary pairs. -/
theorem training_examples (prev curr : List StandingRow) :
    (training_pairs prev curr).length = curr.length ∧
    (∀ i r, curr.get? i = some r →
      ∃ f : Features, (training_pairs prev curr).get? i = some (f, r.position) ∧
        ∀ p, lookupTeam prev r.team = some p → f = featuresOfRow p) ∧
    (∀ seasons summaries X y latest,
      seasonSummaries seasons = some summaries →
      prepare_training_data seasons = some (X, y, latest) →
      X = (((consecPairs summaries).map fun pc =>
        training_pairs pc.1 pc.2).flatten).map Prod.fst ∧
      y = (((consecPairs summaries).map fun pc =>
        training_pairs pc.1 pc.2).flatten).map Prod.snd) := by
  refine ⟨by simp [training_pairs], ?_, ?_⟩
  · intro i r hr
    refine ⟨(match lookupTeam prev r.team with
      | some p => featuresOfRow p
      | none => defaultFeatures prev), ?_, ?_⟩
    · rw [training_pairs_get?, hr]
      rfl
    · intro p hp
      rw [hp]
  · intro seasons summaries X y latest hs hpd
    cases hl : summaries.getLast? with
    | none =>
      rw [List.getLast?_eq_none_iff] at hl
      subst hl
      simp only [prepare_training_data, hs] at hpd
      cases hpd
    | some last =>
      simp only [prepare_training_data, hs, hl, Option.some.injEq,
        Prod.mk.injEq] at hpd
      exact ⟨hpd.1.symm, hpd.2.1.symm⟩

/-- Witness for C1: team `P` occurs in both seasons, so its example carries
its previous-season row and the current position as label; with a single
season the training matrix and label vector are the empty concatenation. -/
theorem training_examples_witness :
    (∃ f : Features,
      (training_pairs
        [⟨"P", 10, 3, 1, 0, 7, 2, 5, 1⟩, ⟨"Q", 1, 0, 1, 3, 2, 8, -6, 2⟩]
        [⟨"P", 9, 3, 0, 1, 6, 3, 3, 1⟩]).get? 0 = some (f, 1) ∧
      ∀ p, lookupTeam
          [⟨"P", 10, 3, 1, 0, 7, 2, 5, 1⟩, ⟨"Q", 1, 0, 1, 3, 2, 8, -6, 2⟩]
          "P" = some p → f = featuresOfRow p) ∧
    (([] : List Features) =
      (((consecPairs [[(⟨"Leeds United", 3, 1, 0, 0, 2, 0, 2, 1⟩ : StandingRow),
          ⟨"Sunderland", 1, 0, 1, 0, 1, 1, 0, 2⟩,
          ⟨"Burnley", 1, 0, 1, 1, 1, 3, -2, 3⟩]]).map fun pc =>
        training_pairs pc.1 pc.2).flatten).map Prod.fst ∧
      ([] : List Nat) =
      (((consecPairs [[(⟨"Leeds United", 3, 1, 0, 0, 2, 0, 2, 1⟩ : StandingRow),
          ⟨"Sunderland", 1, 0, 1, 0, 1, 1, 0, 2⟩,
          ⟨"Burnley", 1, 0, 1, 1, 1, 3, -2, 3⟩]]).map fun pc =>
        training_pairs pc.1 pc.2).flatten).map Prod.snd) := by
  constructor
  · exact (training_examples
      [⟨"P", 10, 3, 1, 0, 7, 2, 5, 1⟩, ⟨"Q", 1, 0, 1, 3, 2, 8, -6, 2⟩]
      [⟨"P", 9, 3, 0, 1, 6, 3, 3, 1⟩]).2.1 0 ⟨"P", 9, 3, 0, 1, 6, 3, 3, 1⟩ rfl
  · exact (training_examples [] []).2.2
      [[⟨"Leeds United", "Burnley", some ('2' :: '-' :: '0' :: [])⟩,
        ⟨"Burnley", "Sunderland", some ('1' :: '-' :: '1' :: [])⟩]]
      [[⟨"Leeds United", 3, 1, 0, 0, 2, 0, 2, 1⟩,
        ⟨"Sunderland", 1, 0, 1, 0, 1, 1, 0, 2⟩,
        ⟨"Burnley", 1, 0, 1, 1, 1, 3, -2, 3⟩]]
      [] []
      [("Leeds United", featuresOfRow ⟨"Leeds United", 3, 1, 0, 0, 2, 0, 2, 1⟩),
       ("Sunderland", featuresOfRow ⟨"Sunderland", 1, 0, 1, 0, 1, 1, 0, 2⟩),
       ("Burnley", featuresOfRow ⟨"Burnley", 1, 0, 1, 1, 1, 3, -2, 3⟩)]
      (by decide) (by decide)

/-- C2: a team of the next season's standing with no row in the previous
standing is assigned the promoted-team default: the field-wise arithmetic
mean of the first three rows of the previous standing sorted ascending by
`(points, goal_diff, goals_for)` — and that sorted prefix really consists
of the lowest-placed teams: it is below everything that follows it. -/
theorem promoted_default_mean (prev curr : List StandingRow) (i : Nat)
    (r : StandingRow) (hlen : 3 ≤ prev.length) (hr : curr.get? i = some r)
    (habs : lookupTeam prev r.team = none) :
    ∃ t1 t2 t3 rest,
      List.insertionSort bottomOrder prev = t1 :: t2 :: t3 :: rest ∧
      bottomOrder t1 t2 ∧ bottomOrder t2 t3 ∧ (∀ u ∈ rest, bottomOrder t3 u) ∧
      (training_pairs prev curr).get? i = some
        ({ points := ((t1.points : ℚ) + (t2.points : ℚ) + (t3.points : ℚ)) / 3,
           wins := ((t1.wins : ℚ) + (t2.wins : ℚ) + (t3.wins : ℚ)) / 3,
           draws := ((t1.draws : ℚ) + (t2.draws : ℚ) + (t3.draws : ℚ)) / 3,
           losses := ((t1.losses : ℚ) + (t2.losses : ℚ) + (t3.losses : ℚ)) / 3,
           goals_for :=
             ((t1.goals_for : ℚ) + (t2.goals_for : ℚ) + (t3.goals_for : ℚ)) / 3,
           goals_against :=
             ((t1.goals_against : ℚ) + (t2.goals_against : ℚ) +
               (t3.goals_against : ℚ)) / 3,
           goal_diff :=
             ((t1.goal_diff : ℚ) + (t2.goal_diff : ℚ) + (t3.goal_diff : ℚ)) / 3 },
          r.position) := by
  have hplen : (List.insertionSort bottomOrder prev).length = prev.length :=
    (List.perm_insertionSort bottomOrder prev).length_eq
  cases hs : List.insertionSort bottomOrder prev with
  | nil => rw [hs] at hplen; simp at hplen; omega
  | cons t1 l1 =>
    cases l1 with
    | nil => rw [hs] at hplen; simp at hplen; omega
    | cons t2 l2 =>
      cases l2 with
      | nil => rw [hs] at hplen; simp at hplen; omega
      | cons t3 rest =>
        have hsorted := List.sorted_insertionSort bottomOrder prev
        rw [hs] at hsorted
        have h12 : bottomOrder t1 t2 :=
          (List.pairwise_cons.mp hsorted).1 t2 (by simp)
        have hrest1 := (List.pairwise_cons.mp hsorted).2
        have h23 : bottomOrder t2 t3 :=
          (List.pairwise_cons.mp hrest1).1 t3 (by simp)
        have hrest2 := (List.pairwise_cons.mp hrest1).2
        have h3r : ∀ u ∈ rest, bottomOrder t3 u :=
          (List.pairwise_cons.mp hrest2).1
        have hdf : defaultFeatures prev =
            { points := ((t1.points : ℚ) + (t2.points : ℚ) + (t3.points : ℚ)) / 3,
              wins := ((t1.wins : ℚ) + (t2.wins : ℚ) + (t3.wins : ℚ)) / 3,
              draws := ((t1.draws : ℚ) + (t2.draws : ℚ) + (t3.draws : ℚ)) / 3,
              losses := ((t1.losses : ℚ) + (t2.losses : ℚ) + (t3.losses : ℚ)) / 3,
              goals_for :=
                ((t1.goals_for : ℚ) + (t2.goals_for : ℚ) + (t3.goals_for : ℚ)) / 3,
              goals_against :=
                ((t1.goals_against : ℚ) + (t2.goals_against : ℚ) +
                  (t3.goals_against : ℚ)) / 3,
              goal_diff :=
                ((t1.goal_diff : ℚ) + (t2.goal_diff : ℚ) +
                  (t3.goal_diff : ℚ)) / 3 } := by
          unfold defaultFeatures
          rw [hs]
          simp only [List.take_succ_cons, List.take_zero, List.map_cons,
            List.map_nil, List.sum_cons, List.sum_nil, List.length_cons,
            List.length_nil, Features.mk.injEq]
          norm_num
          refine ⟨?_, ?_, ?_, ?_, ?_, ?_, ?_⟩ <;> ring
        refine ⟨t1, t2, t3, rest, rfl, h12, h23, h3r, ?_⟩
        rw [training_pairs_get?, hr]
        simp only [Option.map_some', habs, hdf]

/-- Witness for C2: a four-team previous season with bottom three `Z`, `Y`,
`X` (ascending), and a new team `N` in the next season. -/
theorem promoted_default_mean_witness :
    ∃ t1 t2 t3 rest,
      List.insertionSort bottomOrder
          [⟨"W", 9, 3, 0, 0, 9, 2, 7, 1⟩, ⟨"X", 6, 2, 0, 1, 5, 3, 2, 2⟩,
           ⟨"Y", 3, 1, 0, 2, 4, 6, -2, 3⟩, ⟨"Z", 0, 0, 0, 3, 1, 8, -7, 4⟩] =
        t1 :: t2 :: t3 :: rest ∧
      bottomOrder t1 t2 ∧ bottomOrder t2 t3 ∧ (∀ u ∈ rest, bottomOrder t3 u) ∧
      (training_pairs
          [⟨"W", 9, 3, 0, 0, 9, 2, 7, 1⟩, ⟨"X", 6, 2, 0, 1, 5, 3, 2, 2⟩,
           ⟨"Y", 3, 1, 0, 2, 4, 6, -2, 3⟩, ⟨"Z", 0, 0, 0, 3, 1, 8, -7, 4⟩]
          [⟨"N", 5, 1, 2, 0, 4, 2, 2, 1⟩]).get? 0 = some
        ({ points := ((t1.points : ℚ) + (t2.points : ℚ) + (t3.points : ℚ)) / 3,
           wins := ((t1.wins : ℚ) + (t2.wins : ℚ) + (t3.wins : ℚ)) / 3,
           draws := ((t1.draws : ℚ) + (t2.draws : ℚ) + (t3.draws : ℚ)) / 3,
           losses := ((t1.losses : ℚ) + (t2.losses : ℚ) + (t3.losses : ℚ)) / 3,
           goals_for :=
             ((t1.goals_for : ℚ) + (t2.goals_for : ℚ) + (t3.goals_for : ℚ)) / 3,
           goals_against :=
             ((t1.goals_against : ℚ) + (t2.goals_against : ℚ) +
               (t3.goals_against : ℚ)) / 3,
           goal_diff :=
             ((t1.goal_diff : ℚ) + (t2.goal_diff : ℚ) +
               (t3.goal_diff : ℚ)) / 3 }, 1) :=
  promoted_default_mean
    [⟨"W", 9, 3, 0, 0, 9, 2, 7, 1⟩, ⟨"X", 6, 2, 0, 1, 5, 3, 2, 2⟩,
     ⟨"Y", 3, 1, 0, 2, 4, 6, -2, 3⟩, ⟨"Z", 0, 0, 0, 3, 1, 8, -7, 4⟩]
    [⟨"N", 5, 1, 2, 0, 4, 2, 2, 1⟩] 0 ⟨"N", 5, 1, 2, 0, 4, 2, 2, 1⟩
    (by decide) rfl (by decide)

/-! ### Failure behaviour of the training pipeline -/

theorem parse_match_results_some_ne_nil (rows : List RawRow) (out : List Match)
    (h : parse_match_results rows = some out) : out ≠ [] := by
  unfold parse_match_results at h
  by_cases he : rows.isEmpty
  · rw [if_pos he] at h; cases h
  · rw [if_neg he] at h
    have hlen := (parseRows_some rows out h).1
    intro h0
    subst h0
    cases rows with
    | nil => exact he rfl
    | cons a l => simp at hlen

theorem summarise_season_of_parse (s : List RawRow) (parsed : List Match)
    (hp : parse_match_results s = some parsed) :
    summarise_season parsed = some (summarise_core parsed) := by
  have hne := parse_match_results_some_ne_nil s parsed hp
  unfold summarise_season
  cases parsed with
  | nil => exact absurd rfl hne
  | cons a l => rfl

theorem seasonSummaries_none_iff (seasons : List (List RawRow)) :
    seasonSummaries seasons = none ↔
      ∃ s ∈ seasons, parse_match_results s = none := by
  induction seasons with
  | nil => simp [seasonSummaries]
  | cons s rest ih =>
    rw [seasonSummaries]
    cases hp : parse_match_results s with
    | none => simp [hp]
    | some parsed =>
      simp only [summarise_season_of_parse s parsed hp]
      cases hrest : seasonSummaries rest with
      | none =>
        constructor
        · intro _
          obtain ⟨s2, hs2, hn⟩ := ih.mp hrest
          exact ⟨s2, List.mem_cons_of_mem s hs2, hn⟩
        · intro _; rfl
      | some others =>
        constructor
        · intro hc; cases hc
        · rintro ⟨s2, hs2, hn⟩
          rcases List.mem_cons.mp hs2 with rfl | hs3
          · rw [hp] at hn; cases hn
          · have := ih.mpr ⟨s2, hs3, hn⟩
            rw [hrest] at this; cases this

theorem seasonSummaries_some_length (seasons : List (List RawRow))
    (summaries : List (List StandingRow))
    (h : seasonSummaries seasons = some summaries) :
    summaries.length = seasons.length := by
  induction seasons generalizing summaries with
  | nil =>
    rw [seasonSummaries] at h
    rw [← Option.some_inj.mp h]
    rfl
  | cons s rest ih =>
    rw [seasonSummaries] at h
    cases hp : parse_match_results s with
    | none => rw [hp] at h; exact Option.noConfusion h
    | some parsed =>
      rw [hp] at h
      simp only [summarise_season_of_parse s parsed hp] at h
      cases hrest : seasonSummaries rest with
      | none => rw [hrest] at h; exact Option.noConfusion h
      | some others =>
        rw [hrest] at h
        rw [← Option.some_inj.mp h]
        simp [ih others hrest]

/-- C5 (amended): `prepare_training_data` fails exactly when no season at
all is supplied, or some season fails to parse — in particular a season
with an empty match table, the only way a standing could come out empty.
With exactly one season it does not fail: the training matrix and label
vector are empty, and the lack of data surfaces only later, at model
fitting. -/
theorem prepare_failure_characterization (seasons : List (List RawRow)) :
    (prepare_training_data seasons = none ↔
      seasons = [] ∨ ∃ s ∈ seasons, parse_match_results s = none) ∧
    (∀ s X y latest, prepare_training_data [s] = some (X, y, latest) →
      X = [] ∧ y = []) := by
  constructor
  · cases hs : seasonSummaries seasons with
    | none =>
      have hex := (seasonSummaries_none_iff seasons).mp hs
      simp [prepare_training_data, hs, hex]
    | some summaries =>
      cases seasons with
      | nil =>
        have hsum : summaries = [] := by
          rw [seasonSummaries] at hs
          exact (Option.some_inj.mp hs).symm
        subst hsum
        simp [prepare_training_data, hs]
      | cons s rest =>
        have hlen := seasonSummaries_some_length _ _ hs
        cases hl : summaries.getLast? with
        | none =>
          rw [List.getLast?_eq_none_iff] at hl
          subst hl
          simp at hlen
        | some last =>
          simp only [prepare_training_data, hs, hl]
          constructor
          · intro hc; cases hc
          · rintro (hc | ⟨s2, hs2, hn⟩)
            · cases hc
            · have := (seasonSummaries_none_iff (s :: rest)).mpr ⟨s2, hs2, hn⟩
              rw [hs] at this; cases this
  · intro s X y latest h
    cases hp : parse_match_results s with
    | none => simp [prepare_training_data, seasonSummaries, hp] at h
    | some parsed =>
      simp only [prepare_training_data, seasonSummaries, hp,
        summarise_season_of_parse s parsed hp] at h
      simp only [List.getLast?, consecPairs, List.zip, List.tail,
        List.zipWith, List.map_nil, List.flatten, Option.some.injEq,
        Prod.mk.injEq] at h
      exact ⟨h.1.symm, h.2.1.symm⟩

/-- C5 counterexample: exactly one (parseable) season is supplied —
strictly fewer than two — yet `prepare_training_data` succeeds, returning
an empty training set rather than failing. -/
theorem prepare_single_season_cex :
    prepare_training_data
        [[⟨"Leeds United", "Burnley", some ('2' :: '-' :: '0' :: [])⟩,
          ⟨"Burnley", "Sunderland", some ('1' :: '-' :: '1' :: [])⟩]] =
      some ([], [],
        [("Leeds United", featuresOfRow ⟨"Leeds United", 3, 1, 0, 0, 2, 0, 2, 1⟩),
         ("Sunderland", featuresOfRow ⟨"Sunderland", 1, 0, 1, 0, 1, 1, 0, 2⟩),
         ("Burnley", featuresOfRow ⟨"Burnley", 1, 0, 1, 1, 1, 3, -2, 3⟩)]) := by
  decide

/-- Witness for C5 (amended), applying the characterization to the one
season table of the counterexample input. -/
theorem prepare_failure_characterization_witness :
    ((prepare_training_data ([] : List (List RawRow)) = none ↔
      ([] : List (List RawRow)) = [] ∨
        ∃ s ∈ ([] : List (List RawRow)), parse_match_results s = none)) ∧
    ([] : List Features) = [] ∧ ([] : List Nat) = [] := by
  refine ⟨(prepare_failure_characterization []).1, ?_⟩
  exact (prepare_failure_characterization []).2
    [⟨"Leeds United", "Burnley", some ('2' :: '-' :: '0' :: [])⟩,
     ⟨"Burnley", "Sunderland", some ('1' :: '-' :: '1' :: [])⟩]
    [] []
    [("Leeds United", featuresOfRow ⟨"Leeds United", 3, 1, 0, 0, 2, 0, 2, 1⟩),
     ("Sunderland", featuresOfRow ⟨"Sunderland", 1, 0, 1, 0, 1, 1, 0, 2⟩),
     ("Burnley", featuresOfRow ⟨"Burnley", 1, 0, 1, 1, 1, 3, -2, 3⟩)]
    (by decide)

/-- C9: in the inference feature table every team appears exactly once —
each team of the most recent standing keeps its real feature slice, and a
promoted name is appended with the default features precisely when it is
absent from that standing; any entry carrying the name of a promoted team
that is present is that team's real row.  Team names of an accepted
standing are pairwise distinct, and `prepare_training_data` returns
`latest_rows` of the most recent summary. -/
theorem latest_table_unique (last : List StandingRow) :
    ((last.map fun r => r.team).Nodup →
      ((latest_rows last).map Prod.fst).Nodup) ∧
    (∀ r ∈ last, (r.team, featuresOfRow r) ∈ latest_rows last) ∧
    (∀ t ∈ promoted, t ∉ last.map (fun r => r.team) →
      (t, defaultFeatures last) ∈ latest_rows last) ∧
    (∀ t ∈ promoted, t ∈ last.map (fun r => r.team) →
      ∀ q ∈ latest_rows last, q.1 = t →
        ∃ r ∈ last, r.team = t ∧ q = (r.team, featuresOfRow r)) ∧
    (∀ ms s, summarise_season ms = some s → (s.map fun r => r.team).Nodup) ∧
    (∀ seasons summaries last2 X y latest,
      seasonSummaries seasons = some summaries →
      summaries.getLast? = some last2 →
      prepare_training_data seasons = some (X, y, latest) →
      latest = latest_rows last2) := by
  refine ⟨?_, ?_, ?_, ?_, ?_, ?_⟩
  · intro hnd
    unfold latest_rows
    rw [List.map_append, List.map_map, List.map_map]
    have h1 : (Prod.fst ∘ fun r : StandingRow => (r.team, featuresOfRow r)) =
        fun r : StandingRow => r.team := rfl
    have h2 : (Prod.fst ∘ fun t : String => (t, defaultFeatures last)) =
        fun t : String => t := rfl
    rw [h1, h2, List.map_id']
    rw [List.nodup_append]
    refine ⟨hnd, ?_, ?_⟩
    · exact List.Nodup.filter _ (by decide)
    · intro t ht htf
      have hmem := List.mem_filter.mp htf
      exact (of_decide_eq_true hmem.2) ht
  · intro r hr
    exact List.mem_append_left _ (List.mem_map.mpr ⟨r, hr, rfl⟩)
  · intro t ht habs
    refine List.mem_append_right _ (List.mem_map.mpr ⟨t, ?_, rfl⟩)
    exact List.mem_filter.mpr ⟨ht, decide_eq_true habs⟩
  · intro t ht hpres q hq hqt
    rcases List.mem_append.mp hq with hq1 | hq2
    · obtain ⟨r, hr, hre⟩ := List.mem_map.mp hq1
      refine ⟨r, hr, ?_, hre.symm⟩
      rw [← hre] at hqt
      exact hqt
    · exfalso
      obtain ⟨t2, ht2, ht2e⟩ := List.mem_map.mp hq2
      have habs2 := of_decide_eq_true (List.mem_filter.mp ht2).2
      rw [← ht2e] at hqt
      simp only at hqt
      subst hqt
      exact habs2 hpres
  · intro ms s hsum
    obtain ⟨rfl, -⟩ := summarise_season_eq ms s hsum
    unfold summarise_core
    rw [setPositions_map_team]
    have hperm := (summarise_core_perm ms).map fun r => r.team
    rw [hperm.nodup_iff]
    rw [List.map_map]
    have hcomp : ((fun r : StandingRow => r.team) ∘ rowOf) =
        (Prod.fst : String × TeamStats → String) := rfl
    rw [hcomp]
    exact accumulate_keys_nodup ms
  · intro seasons summaries last2 X y latest hs hl hpd
    simp only [prepare_training_data, hs, hl, Option.some.injEq,
      Prod.mk.injEq] at hpd
    exact hpd.2.2.symm

/-- Witness for C9: most recent standing with teams `Arsenal` and `Burnley`
(a nominally promoted club that is present), plus the one-season pipeline
data of the other witnesses. -/
theorem latest_table_unique_witness :
    ((latest_rows [⟨"Arsenal", 6, 2, 0, 0, 5, 1, 4, 1⟩,
        ⟨"Burnley", 0, 0, 0, 2, 1, 5, -4, 2⟩]).map Prod.fst).Nodup ∧
    (("Burnley", featuresOfRow ⟨"Burnley", 0, 0, 0, 2, 1, 5, -4, 2⟩) ∈
      latest_rows [⟨"Arsenal", 6, 2, 0, 0, 5, 1, 4, 1⟩,
        ⟨"Burnley", 0, 0, 0, 2, 1, 5, -4, 2⟩]) ∧
    (("Leeds United", defaultFeatures [⟨"Arsenal", 6, 2, 0, 0, 5, 1, 4, 1⟩,
        ⟨"Burnley", 0, 0, 0, 2, 1, 5, -4, 2⟩]) ∈
      latest_rows [⟨"Arsenal", 6, 2, 0, 0, 5, 1, 4, 1⟩,
        ⟨"Burnley", 0, 0, 0, 2, 1, 5, -4, 2⟩]) ∧
    (∃ r ∈ [(⟨"Arsenal", 6, 2, 0, 0, 5, 1, 4, 1⟩ : StandingRow),
        ⟨"Burnley", 0, 0, 0, 2, 1, 5, -4, 2⟩], r.team = "Burnley" ∧
      ("Burnley", featuresOfRow ⟨"Burnley", 0, 0, 0, 2, 1, 5, -4, 2⟩) =
        (r.team, featuresOfRow r)) ∧
    (([(⟨"X", 3, 1, 0, 0, 2, 1, 1, 1⟩ : StandingRow),
        ⟨"Y", 0, 0, 0, 1, 1, 2, -1, 2⟩].map fun r => r.team).Nodup) ∧
    ([("Leeds United", featuresOfRow ⟨"Leeds United", 3, 1, 0, 0, 2, 0, 2, 1⟩),
      ("Sunderland", featuresOfRow ⟨"Sunderland", 1, 0, 1, 0, 1, 1, 0, 2⟩),
      ("Burnley", featuresOfRow ⟨"Burnley", 1, 0, 1, 1, 1, 3, -2, 3⟩)] =
      latest_rows [⟨"Leeds United", 3, 1, 0, 0, 2, 0, 2, 1⟩,
        ⟨"Sunderland", 1, 0, 1, 0, 1, 1, 0, 2⟩,
        ⟨"Burnley", 1, 0, 1, 1, 1, 3, -2, 3⟩]) := by
  have h := latest_table_unique [⟨"Arsenal", 6, 2, 0, 0, 5, 1, 4, 1⟩,
    ⟨"Burnley", 0, 0, 0, 2, 1, 5, -4, 2⟩]
  refine ⟨h.1 (by decide), ?_, h.2.2.1 "Leeds United" (by decide) (by decide),
    ?_, ?_, ?_⟩
  · exact h.2.1 ⟨"Burnley", 0, 0, 0, 2, 1, 5, -4, 2⟩ (by decide)
  · refine h.2.2.2.1 "Burnley" (by decide) (by decide)
      ("Burnley", featuresOfRow ⟨"Burnley", 0, 0, 0, 2, 1, 5, -4, 2⟩) ?_ rfl
    exact List.mem_append_left _ (List.mem_map.mpr
      ⟨⟨"Burnley", 0, 0, 0, 2, 1, 5, -4, 2⟩, by decide, rfl⟩)
  · exact h.2.2.2.2.1 [⟨"X", "Y", 2, 1⟩]
      [⟨"X", 3, 1, 0, 0, 2, 1, 1, 1⟩, ⟨"Y", 0, 0, 0, 1, 1, 2, -1, 2⟩]
      (by decide)
  · exact h.2.2.2.2.2
      [[⟨"Leeds United", "Burnley", some ('2' :: '-' :: '0' :: [])⟩,
        ⟨"Burnley", "Sunderland", some ('1' :: '-' :: '1' :: [])⟩]]
      [[⟨"Leeds United", 3, 1, 0, 0, 2, 0, 2, 1⟩,
        ⟨"Sunderland", 1, 0, 1, 0, 1, 1, 0, 2⟩,
        ⟨"Burnley", 1, 0, 1, 1, 1, 3, -2, 3⟩]]
      [⟨"Leeds United", 3, 1, 0, 0, 2, 0, 2, 1⟩,
        ⟨"Sunderland", 1, 0, 1, 0, 1, 1, 0, 2⟩,
        ⟨"Burnley", 1, 0, 1, 1, 1, 3, -2, 3⟩]
      [] []
      [("Leeds United", featuresOfRow ⟨"Leeds United", 3, 1, 0, 0, 2, 0, 2, 1⟩),
       ("Sunderland", featuresOfRow ⟨"Sunderland", 1, 0, 1, 0, 1, 1, 0, 2⟩),
       ("Burnley", featuresOfRow ⟨"Burnley", 1, 0, 1, 1, 1, 3, -2, 3⟩)]
      (by decide) (by decide) (by decide)
